import Mathlib

/-!
Verification development for the `chai-data-sources` repository.

Shallow embedding of the algorithmic core of the package:

* `utilities.py` — the `Minutes` enumeration, `round_date`, `timed_lru_cache`;
* `netatmo.py` — `NetatmoClient._access_server` (token refresh-and-retry),
  `NetatmoClient._get_thermostat_data` plus the `relay_id`/`thermostat_id`
  accessors, the chunking and series-reconstruction core of
  `NetatmoClient.get_historic`, and `set_device`/`turn_off_device`;
* `efergy.py` — the validation and interval loop of `EfergyMeter.get_historic`.

Timestamps (pendulum `DateTime` values in the source) are modelled as natural
numbers counting seconds; temperatures and power readings as rationals.
Python exceptions are modelled by the `PyErr` inductive, `Optional` values by
`Option`, and network access by explicit oracle functions passed as arguments.
Request counting is made explicit where a claim speaks about the number of
requests issued.

The two `while` loops of `NetatmoClient.get_historic` are translated twice:
once literally (`chunkLoop`, `walk`, defined by well-founded recursion on the
remaining duration, exactly mirroring `while expected_intervals > 1024` and
`while current < end`), and once with an explicit iteration budget
(`chunkFuel`, `walkFuel`) so that the embedding stays kernel-computable.  The
theorems `chunkLoop_eq_chunkFuel` and `walk_eq_walkFuel` prove that with the
budgets used by `getHistoric` the two versions coincide, so `getHistoric` is
extensionally the literal translation of the source.
-/

namespace ChaiDataSources

/-- Python exceptions raised by the modelled code paths (`exceptions.py` plus
the builtin `ValueError`, `IndexError` and `AssertionError`). -/
inductive PyErr where
  | valueError
  | indexError
  | assertionError
  | netatmoMeasurementError
  | netatmoRelayError
  | netatmoThermostatError
  | netatmoConnectionError
  | netatmoUnknownError
  | netatmoInvalidClientError
  | netatmoInvalidTokenError
  | netatmoInvalidDurationError
  | netatmoInvalidTemperatureError
  deriving DecidableEq, Repr

deriving instance DecidableEq for Except

/-- `utilities.Minutes`: the enumeration of valid minute intervals. -/
inductive Minutes where
  | min1 | min2 | min3 | min5 | min6 | min10 | min15 | min30
  deriving DecidableEq, Repr

/-- `Minutes.value` in the source: the numeric value of each enum member. -/
def Minutes.value : Minutes → ℕ
  | .min1 => 1
  | .min2 => 2
  | .min3 => 3
  | .min5 => 5
  | .min6 => 6
  | .min10 => 10
  | .min15 => 15
  | .min30 => 30

/-- `utilities.round_date`, on timestamps measured in seconds.  The source
computes `date.set(minute=(date.minute // minutes) * minutes, second=0)` and
adds `minutes` unless rounding down or the remainder
`(date.minute % minutes) + date.second / 60` is zero.  Here `g` is the numeric
minute count (`minutes.value` in the source, asserted to divide 60). -/
def roundDate (t g : ℕ) (roundDown : Bool) : ℕ :=
  let μ := t / 60 % 60
  let base := t - t % 3600 + μ / g * g * 60
  if roundDown || (μ % g == 0 && t % 60 == 0) then base else base + g * 60

/-- The chunking loop of `NetatmoClient.get_historic` (lines 630-639), as a
literal translation of `while expected_intervals > 1024`: split a
30-minute-aligned range into consecutive sub-ranges of at most 1024 units of
30 minutes (1843200 seconds).  The source keeps `expected_intervals` as the
float `duration / 30` in minutes, so the loop guard is the test
`e - s > 1843200` on second-valued timestamps. -/
def chunkLoop (s e : ℕ) : List (ℕ × ℕ) :=
  if e - s > 1843200 then (s, s + 1843200) :: chunkLoop (s + 1843200) e else [(s, e)]
  termination_by e - s
  decreasing_by omega

/-- `chunkLoop` with an explicit iteration budget; see `chunkLoop_eq_chunkFuel`. -/
def chunkFuel : ℕ → ℕ → ℕ → List (ℕ × ℕ)
  | 0, s, e => [(s, e)]
  | n + 1, s, e =>
    if e - s > 1843200 then (s, s + 1843200) :: chunkFuel n (s + 1843200) e else [(s, e)]

/-- `historic_temperature.HistoricTemperature`: a value valid on `[start, stop)`
(the `end` field in the source). -/
structure HistoricTemperature where
  value : ℚ
  start : ℕ
  stop : ℕ
  deriving DecidableEq, Repr

/-- Insertion step for sorting a measurement body by timestamp
(the `sorted(data.body.keys())` call in `get_historic`). -/
def insertSorted (p : ℕ × List ℚ) : List (ℕ × List ℚ) → List (ℕ × List ℚ)
  | [] => [p]
  | q :: t => if p.1 ≤ q.1 then p :: q :: t else q :: insertSorted p t

/-- Sort a measurement body by timestamp, as `sorted(data.body.keys())` does. -/
def sortByKey (l : List (ℕ × List ℚ)) : List (ℕ × List ℚ) :=
  l.foldr insertSorted []

/-- Walk one chunk's body in sorted timestamp order, demanding exactly one
value per timestamp (`if len(values) != 1: raise NetatmoMeasurementError`). -/
def checkValues : List (ℕ × List ℚ) → Except PyErr (List (ℕ × ℚ))
  | [] => .ok []
  | (t, vs) :: rest =>
    match vs with
    | [v] => (checkValues rest).map (fun es => (t, v) :: es)
    | _ => .error .netatmoMeasurementError

/-- Process one chunk body: sort the timestamps, then check the values. -/
def collectChunk (body : List (ℕ × List ℚ)) : Except PyErr (List (ℕ × ℚ)) :=
  checkValues (sortByKey body)

/-- Fetch and process every chunk in order, appending the entries and counting
the `/getmeasure` requests issued. -/
def collectAll (fetch : ℕ → ℕ → List (ℕ × List ℚ)) :
    List (ℕ × ℕ) → Except PyErr (List (ℕ × ℚ)) × ℕ
  | [] => (.ok [], 0)
  | (a, b) :: rest =>
    match collectChunk (fetch a b) with
    | .error err => (.error err, 1)
    | .ok es =>
      let (r, n) := collectAll fetch rest
      (r.map (fun more => es ++ more), n + 1)

/-- The inner `while entry_date < current_end: entry_date, previous_temperature
= entries.pop()` scan of `get_historic`.  `d` is the date of the entry last
peeked or popped, `p` the temperature adopted so far, `ce` the end of the
current step.  Note that after a pop the guard is re-checked against the
*popped* entry's date, so the scan keeps popping — and keeps adopting values —
until it has consumed an entry dated at or after `ce`; popping from an empty
list is Python's `IndexError`, modelled as `none`. -/
def advance (ce : ℕ) (d : ℕ) (p : ℚ) : List (ℕ × ℚ) → Option (ℚ × List (ℕ × ℚ))
  | [] => if d < ce then none else some (p, [])
  | (d', v') :: rest => if d < ce then advance ce d' v' rest else some (p, (d', v') :: rest)

/-- The outer `while current < end` reconstruction walk of
`NetatmoClient.get_historic` (lines 675-683), as a literal translation.  One
record is emitted per step; when entries remain the scan starts from a peek at
the earliest unconsumed entry (`entry_date, _ = entries[-1]`). -/
def walk (m : Minutes) (e : ℕ) (cur : ℕ) (prev : ℚ) (entries : List (ℕ × ℚ)) :
    Option (List HistoricTemperature) :=
  if h : cur < e then
    let ce := cur + 60 * m.value
    let step :=
      match entries with
      | [] => some (prev, [])
      | (d, v) :: rest => advance ce d prev ((d, v) :: rest)
    match step with
    | none => none
    | some (p', rest') => (walk m e ce p' rest').map (fun r => ⟨p', cur, ce⟩ :: r)
  else some []
  termination_by e - cur
  decreasing_by
    cases m <;> simp [Minutes.value] <;> omega

/-- `walk` with an explicit iteration budget; see `walk_eq_walkFuel`. -/
def walkFuel (m : Minutes) (e : ℕ) :
    ℕ → ℕ → ℚ → List (ℕ × ℚ) → Option (List HistoricTemperature)
  | 0, _, _, _ => some []
  | n + 1, cur, prev, entries =>
    if cur < e then
      let ce := cur + 60 * m.value
      let step :=
        match entries with
        | [] => some (prev, [])
        | (d, v) :: rest => advance ce d prev ((d, v) :: rest)
      match step with
      | none => none
      | some (p', rest') => (walkFuel m e n ce p' rest').map (fun r => ⟨p', cur, ce⟩ :: r)
    else some []

/-- The start of the requested period, rounded down to the granularity
(`start = round_date(start, minutes=minutes, round_down=True)`). -/
def alignedStart (start : ℕ) (m : Minutes) : ℕ := roundDate start m.value true

/-- The end of the requested period, rounded up to the granularity
(`end = round_date(end, minutes=minutes, round_down=False)`). -/
def alignedEnd (stop : ℕ) (m : Minutes) : ℕ := roundDate stop m.value false

/-- The request plan of `get_historic`: align the granularity-aligned bounds
further to the API's 30-minute binning and split the range into sub-ranges of
at most 1024 units.  The iteration budget always suffices, so by
`chunkLoop_eq_chunkFuel` this is the literal chunking loop of the source. -/
def historicChunks (start stop : ℕ) (m : Minutes) : List (ℕ × ℕ) :=
  let s30 := roundDate (alignedStart start m) 30 true
  let e30 := roundDate (alignedEnd stop m) 30 false
  chunkFuel ((e30 - s30) / 1843200 + 1) s30 e30

/-- The algorithmic core of `NetatmoClient.get_historic`: input validation,
alignment, chunked fetching through the `fetch` oracle, the malformed-data
checks, and the reconstruction walk.  Returns the outcome together with the
number of `/getmeasure` requests issued.  The iteration budgets passed to
`chunkFuel` and `walkFuel` always suffice, so by `chunkLoop_eq_chunkFuel` and
`walk_eq_walkFuel` this is the literal `while` loop of the source. -/
def getHistoric (fetch : ℕ → ℕ → List (ℕ × List ℚ)) (start stop : ℕ) (m : Minutes) :
    Except PyErr (List HistoricTemperature) × ℕ :=
  if stop ≤ start then
    (.error .valueError, 0)
  else
    let s := alignedStart start m
    let e := alignedEnd stop m
    match collectAll fetch (historicChunks start stop m) with
    | (.error err, n) => (.error err, n)
    | (.ok [], n) => (.error .netatmoMeasurementError, n)
    | (.ok ((d0, v0) :: rest), n) =>
      match walkFuel m e ((e - s) / (60 * m.value) + 1) s v0 ((d0, v0) :: rest) with
      | none => (.error .indexError, n)
      | some response => (.ok response, n)

/-- Executable well-formedness check for a chunk list produced for the range
`[s, e)`: the sub-ranges are consecutive (no gaps, no overlaps), ordered and
non-empty, they cover `[s, e)` exactly, every sub-range spans at most
1024 units of 30 minutes (1843200 seconds), and every sub-range except the
final one spans exactly 1024 units. -/
def chunksOk (s e : ℕ) : List (ℕ × ℕ) → Bool
  | [] => false
  | [(a, b)] => a == s && b == e && decide (a < b) && decide (b - a ≤ 1843200)
  | (a, b) :: q :: rest => a == s && decide (a < b) && (b - a == 1843200) && chunksOk b e (q :: rest)

/-- `historic_power.HistoricPower`: a power total for the interval
`[start, stop)` (the `end` field in the source). -/
structure HistoricPower where
  value : ℚ
  start : ℕ
  stop : ℕ
  deriving DecidableEq, Repr

/-- The per-interval request loop of `EfergyMeter.get_historic` (lines
164-188): one `/getEnergy` request per aligned interval of `minutes`, with the
returned `(sum, duration)` checked by `assert data.duration == minutes * 60`.
The fetch oracle maps an interval to the decoded `(sum, duration)` pair, and
the second result component counts the requests issued. -/
def efergyLoop (fetch : ℕ → ℕ → ℚ × ℤ) (m : Minutes) (e : ℕ) (cur : ℕ) :
    Except PyErr (List HistoricPower) × ℕ :=
  if _h : cur < e then
    let nxt := cur + 60 * m.value
    let (sum, duration) := fetch cur nxt
    if duration = 60 * m.value then
      let (r, n) := efergyLoop fetch m e nxt
      (r.map (fun more => ⟨sum, cur, nxt⟩ :: more), n + 1)
    else
      (.error .assertionError, 1)
  else (.ok [], 0)
  termination_by e - cur
  decreasing_by
    cases m <;> simp [Minutes.value] <;> omega

/-- `EfergyMeter.get_historic`: validation, alignment and the interval loop.
The generator body is modelled as the sequence it produces; the
`end <= start` check precedes any request. -/
def efergyGetHistoric (fetch : ℕ → ℕ → ℚ × ℤ) (start stop : ℕ) (m : Minutes) :
    Except PyErr (List HistoricPower) × ℕ :=
  if stop ≤ start then
    (.error .valueError, 0)
  else
    efergyLoop fetch m (roundDate stop m.value false) (roundDate start m.value true)

/-- An HTTP response as seen by `NetatmoClient._access_server`: a status code
and a body text. -/
structure HttpResponse where
  status : ℕ
  body : String
  deriving DecidableEq, Repr

/-- `NetatmoClient._access_server` (lines 487-499): post the request; on a 403
renew the token (`self._renewal()`, whose own failures propagate) and retry
once with the new token; then `raise_for_status` (any status of 400 or more
becomes a `RequestException`, wrapped into `NetatmoConnectionError`), and an
empty body is `NetatmoUnknownError`.  `postResult k` is the response to the
`k`-th `requests.post` of this call, and `renew` the outcome of `_renewal`.
Returns the body handed to the JSON/dacite stage, the number of renewal
attempts, and the number of requests posted. -/
def accessServer (postResult : ℕ → HttpResponse) (renew : Except PyErr Unit) :
    Except PyErr String × ℕ × ℕ :=
  let r1 := postResult 0
  if r1.status = 403 then
    match renew with
    | .error e => (.error e, 1, 1)
    | .ok _ =>
      let r2 := postResult 1
      if 400 ≤ r2.status then (.error .netatmoConnectionError, 1, 2)
      else if r2.body = "" then (.error .netatmoUnknownError, 1, 2)
      else (.ok r2.body, 1, 2)
  else
    if 400 ≤ r1.status then (.error .netatmoConnectionError, 0, 1)
    else if r1.body = "" then (.error .netatmoUnknownError, 0, 1)
    else (.ok r1.body, 0, 1)

/-- The measured state of a thermostat module (`_Measurement`). -/
structure NMeasurement where
  temperature : ℚ
  setpointTemp : ℚ
  deriving DecidableEq, Repr

/-- A module of a relay (`_Module`): its id and measurement. -/
structure NModule where
  id : String
  measured : NMeasurement
  deriving DecidableEq, Repr

/-- A relay device (`_Device`): its id and its modules. -/
structure NDevice where
  id : String
  modules : List NModule
  deriving DecidableEq, Repr

/-- The decoded `/getthermostatsdata` body (`_ThermostatsData.body`). -/
structure ThermostatsData where
  devices : List NDevice
  deriving DecidableEq, Repr

/-- The cardinality checks of `NetatmoClient._get_thermostat_data` (lines
515-525): zero or more than one device is `NetatmoRelayError`, zero or more
than one module is `NetatmoThermostatError`; otherwise the relay id, the
thermostat id and the derived `_thermostat_on` flag are produced. -/
def getThermostatDataResult (data : ThermostatsData) :
    Except PyErr (String × String × Bool) :=
  match data.devices with
  | [] => .error .netatmoRelayError
  | [relay] =>
    match relay.modules with
    | [] => .error .netatmoThermostatError
    | [thermostat] =>
      .ok (relay.id, thermostat.id,
        decide (thermostat.measured.temperature < thermostat.measured.setpointTemp))
    | _ :: _ :: _ => .error .netatmoThermostatError
  | _ :: _ :: _ => .error .netatmoRelayError

/-- The identity fields of a `NetatmoClient` relevant to thermostat discovery
(`_relay_id`, `_thermostat_id`, `_thermostat_on`), all `None` at
construction. -/
structure ClientState where
  relayId : Option String
  thermostatId : Option String
  thermostatOn : Option Bool
  deriving DecidableEq, Repr

/-- A freshly constructed client: no identifier resolved yet. -/
def ClientState.init : ClientState := ⟨none, none, none⟩

/-- Python truthiness of an optional string: `if not self._relay_id` is true
for `None` and for the empty string. -/
def pyFalsyStr : Option String → Bool
  | none => true
  | some s => s == ""

/-- Run `_get_thermostat_data` against the decoded discovery response and
store the three fields on success. -/
def applyThermostatData (_st : ClientState) (data : ThermostatsData) :
    Except PyErr ClientState :=
  match getThermostatDataResult data with
  | .error e => .error e
  | .ok (r, t, onFlag) => .ok ⟨some r, some t, some onFlag⟩

/-- The `relay_id` property (lines 365-371): fetch only when the cached field
is falsy.  Returns the outcome, the new state, and the number of discovery
requests issued. -/
def relayIdGet (st : ClientState) (data : ThermostatsData) :
    Except PyErr String × ClientState × ℕ :=
  if pyFalsyStr st.relayId then
    match applyThermostatData st data with
    | .error e => (.error e, st, 1)
    | .ok st' => (.ok (st'.relayId.getD ""), st', 1)
  else (.ok (st.relayId.getD ""), st, 0)

/-- The `thermostat_id` property (lines 373-379), analogous to `relay_id`. -/
def thermostatIdGet (st : ClientState) (data : ThermostatsData) :
    Except PyErr String × ClientState × ℕ :=
  if pyFalsyStr st.thermostatId then
    match applyThermostatData st data with
    | .error e => (.error e, st, 1)
    | .ok st' => (.ok (st'.thermostatId.getD ""), st', 1)
  else (.ok (st.thermostatId.getD ""), st, 0)

/-- Association-list lookup, used for the LRU cache table and for inspecting
request payloads. -/
def lookupKey {α β : Type} [DecidableEq α] (a : α) : List (α × β) → Option β
  | [] => none
  | (k, v) :: rest => if k = a then some v else lookupKey a rest

/-- The state attached by `utilities.timed_lru_cache` to a wrapped function:
the `functools.lru_cache` table (most recent first) and the single shared
`expiration` instant. -/
structure TimedCache (α β : Type) where
  entries : List (α × β)
  expiration : ℕ

/-- One `functools.lru_cache` call: on a hit the entry moves to the front of
the recency order; on a miss the value is computed, stored, and the least
recently used entry is dropped once `maxsize` is exceeded.  The `Bool` result
records whether the wrapped function was actually invoked. -/
def lruCall {α β : Type} [DecidableEq α] (f : α → β) (maxsize : ℕ)
    (table : List (α × β)) (a : α) : β × List (α × β) × Bool :=
  match lookupKey a table with
  | some v => (v, (a, v) :: table.filter (fun p => p.1 != a), false)
  | none => (f a, ((a, f a) :: table).take maxsize, true)

/-- One call through the `timed_lru_cache` wrapper (lines 96-102): if
`pendulum.now() >= func.expiration` the whole cache is cleared and the expiry
reset to `now + lifetime`, then the call proceeds through the LRU cache. -/
def timedCall {α β : Type} [DecidableEq α] (f : α → β) (lifetime maxsize : ℕ)
    (st : TimedCache α β) (now : ℕ) (a : α) : β × TimedCache α β × Bool :=
  let st' := if st.expiration ≤ now then TimedCache.mk [] (now + lifetime) else st
  match lruCall f maxsize st'.entries a with
  | (v, table, computed) => (v, ⟨table, st'.expiration⟩, computed)

/-- `device_temperature.DeviceType`. -/
inductive DeviceType where
  | thermostat | valve
  deriving DecidableEq, Repr

/-- `netatmo.SetpointMode` (valves support only these three). -/
inductive SetpointMode where
  | off | manual | max
  deriving DecidableEq, Repr

/-- `SetpointMode.value`: the wire string of each mode. -/
def SetpointMode.modeString : SetpointMode → String
  | .off => "off"
  | .manual => "manual"
  | .max => "max"

/-- A payload field value: a string or an integer. -/
inductive PVal where
  | s (v : String)
  | n (v : ℤ)
  deriving DecidableEq, Repr

/-- Python truthiness of an optional integer: `if not minutes` is true for
`None` and for `0`. -/
def pyFalsyInt : Option ℤ → Bool
  | none => true
  | some v => v == 0

/-- `NetatmoClient.set_device` (lines 708-747) up to the point where the
payload is posted: for a valve with mode `OFF` the duration defaults to
`24 * 60` minutes, the temperature is forced to 7 and the mode is rewritten to
`MANUAL`; the payload addresses the room endpoint for a valve and the
thermostat endpoint otherwise; `MANUAL`/`MAX` require a positive truthy
duration (else `NetatmoInvalidDurationError`) and add an end time of
`pendulum.now().add(minutes=minutes)`; `MANUAL` requires a temperature within
7-30 (else `NetatmoInvalidTemperatureError`).  Returns the endpoint and the
payload sent. -/
def setDevice (relayId thermostatId valveId homeId roomId : String) (now : ℤ)
    (device : DeviceType) (mode : SetpointMode)
    (temperature minutes : Option ℤ) : Except PyErr (String × List (String × PVal)) :=
  let remapped := device = DeviceType.valve ∧ mode = SetpointMode.off
  let minutes := if remapped ∧ pyFalsyInt minutes then some ((24 : ℤ) * 60) else minutes
  let temperature := if remapped then some (7 : ℤ) else temperature
  let mode := if remapped then SetpointMode.manual else mode
  let payload :=
    [("device_id", PVal.s relayId),
     ("module_id", PVal.s (if device = DeviceType.thermostat then thermostatId else valveId)),
     ("setpoint_mode", PVal.s mode.modeString)]
  let payload :=
    if device = DeviceType.valve then
      [("home_id", PVal.s homeId), ("room_id", PVal.s roomId),
       ("mode", PVal.s mode.modeString)]
    else payload
  let durationStep : Except PyErr (List (String × PVal)) :=
    if mode = SetpointMode.manual ∨ mode = SetpointMode.max then
      if pyFalsyInt minutes ∨ minutes.getD 0 < 0 then .error .netatmoInvalidDurationError
      else
        .ok [(if device = DeviceType.thermostat then "setpoint_endtime" else "endtime",
          PVal.n (now + 60 * minutes.getD 0))]
    else .ok []
  match durationStep with
  | .error e => .error e
  | .ok durationFields =>
    let temperatureStep : Except PyErr (List (String × PVal)) :=
      if mode = SetpointMode.manual then
        if pyFalsyInt temperature ∨ ¬ (7 ≤ temperature.getD 0 ∧ temperature.getD 0 ≤ 30) then
          .error .netatmoInvalidTemperatureError
        else
          .ok [(if device = DeviceType.thermostat then "setpoint_temp" else "temp",
            PVal.n (temperature.getD 0))]
      else .ok []
    match temperatureStep with
    | .error e => .error e
    | .ok temperatureFields =>
      .ok (if device = DeviceType.thermostat then "/setthermpoint" else "/setroomthermpoint",
        payload ++ durationFields ++ temperatureFields)

/-- `NetatmoClient.turn_off_device` (lines 696-706): a thermostat is set to
mode `OFF`; a valve is set to `MANUAL` at 7 degrees for the given duration.
The Python signature defaults `minutes` to `24 * 60`; a call that supplies no
duration passes `some (24 * 60)` here. -/
def turnOffDevice (relayId thermostatId valveId homeId roomId : String) (now : ℤ)
    (device : DeviceType) (minutes : Option ℤ) :
    Except PyErr (String × List (String × PVal)) :=
  if device = DeviceType.thermostat then
    setDevice relayId thermostatId valveId homeId roomId now device SetpointMode.off none none
  else
    setDevice relayId thermostatId valveId homeId roomId now device SetpointMode.manual
      (some 7) minutes

theorem Minutes.value_pos (m : Minutes) : 0 < m.value := by
  cases m <;> simp [Minutes.value]

theorem Minutes.value_dvd_60 (m : Minutes) : m.value ∣ 60 := by
  cases m <;> decide

/-- Rounding down is flooring to the grid of `60 * g`-second buckets: the
`set(minute=..., second=0)` computation agrees with integer flooring because
`g` divides 60, so buckets never straddle an hour boundary. -/
theorem roundDate_down_eq_floor (t g : ℕ) (hdvd : g ∣ 60) (hg : 0 < g) :
    roundDate t g true = 60 * g * (t / (60 * g)) := by
  obtain ⟨c, hc⟩ := hdvd
  have h1 : t / (60 * g) = t / 60 / g := (Nat.div_div_eq_div_mul t 60 g).symm
  have h2 : t / 60 = 60 * (t / 3600) + t / 60 % 60 := by
    conv_lhs => rw [← Nat.div_add_mod (t / 60) 60]
    norm_num [Nat.div_div_eq_div_mul]
  have e : 60 * (t / 3600) = g * (c * (t / 3600)) := by rw [hc, mul_assoc]
  have h3 : t / 60 / g = c * (t / 3600) + (t / 60 % 60) / g := by
    set μ := t / 60 % 60 with hμ
    rw [h2, e, Nat.mul_add_div hg]
  have h4 : t - t % 3600 = 3600 * (t / 3600) := by
    have := Nat.div_add_mod t 3600
    omega
  simp only [roundDate, Bool.true_or, if_true]
  rw [h1, h3, h4]
  calc 3600 * (t / 3600) + t / 60 % 60 / g * g * 60
      = 60 * (g * c) * (t / 3600) + 60 * g * (t / 60 % 60 / g) := by rw [← hc]; ring
    _ = 60 * g * (c * (t / 3600) + t / 60 % 60 / g) := by ring

/-- The timestamp's remainder modulo `60 * g` decomposes into the minute part
modulo `g` and the second part. -/
theorem mod_sixty_mul_decomp (t g : ℕ) (hg : 0 < g) :
    t % (60 * g) = 60 * (t / 60 % g) + t % 60 := by
  have key : t = 60 * g * (t / 60 / g) + (60 * (t / 60 % g) + t % 60) := by
    have a1 := Nat.div_add_mod t 60
    have a2 := Nat.div_add_mod (t / 60) g
    calc t = 60 * (t / 60) + t % 60 := by omega
      _ = 60 * (g * (t / 60 / g) + t / 60 % g) + t % 60 := by rw [a2]
      _ = 60 * g * (t / 60 / g) + (60 * (t / 60 % g) + t % 60) := by ring
  have b1 : t / 60 % g < g := Nat.mod_lt _ hg
  have b2 : t % 60 < 60 := Nat.mod_lt _ (by norm_num)
  have hlt : 60 * (t / 60 % g) + t % 60 < 60 * g := by omega
  calc t % (60 * g)
      = (60 * g * (t / 60 / g) + (60 * (t / 60 % g) + t % 60)) % (60 * g) := by rw [← key]
    _ = (60 * (t / 60 % g) + t % 60) % (60 * g) := by rw [Nat.mul_add_mod]
    _ = 60 * (t / 60 % g) + t % 60 := Nat.mod_eq_of_lt hlt

/-- The remainder test in `round_date` (`(date.minute % minutes) + date.second / 60`
being zero) holds exactly when the timestamp sits on a `60 * g`-second bucket
boundary. -/
theorem roundDate_boundary_iff (t g : ℕ) (hdvd : g ∣ 60) (hg : 0 < g) :
    (t / 60 % 60 % g = 0 ∧ t % 60 = 0) ↔ t % (60 * g) = 0 := by
  rw [Nat.mod_mod_of_dvd (t / 60) hdvd, mod_sixty_mul_decomp t g hg]
  omega

/-- Rounding up returns the same bucket floor on a boundary, and the floor plus
one bucket width otherwise. -/
theorem roundDate_up_eq (t g : ℕ) (hdvd : g ∣ 60) (hg : 0 < g) :
    roundDate t g false =
      if t % (60 * g) = 0 then roundDate t g true else roundDate t g true + g * 60 := by
  have hb := roundDate_boundary_iff t g hdvd hg
  by_cases h : t % (60 * g) = 0
  · have hc : t / 60 % 60 % g = 0 ∧ t % 60 = 0 := hb.mpr h
    simp [roundDate, h, hc.1, hc.2]
  · have hc : ¬ (t / 60 % 60 % g = 0 ∧ t % 60 = 0) := fun hx => h (hb.mp hx)
    have hcb : (t / 60 % 60 % g == 0 && t % 60 == 0) = false := by
      cases hx : (t / 60 % 60 % g == 0 && t % 60 == 0)
      · rfl
      · exact absurd (by simpa using hx) hc
    simp [roundDate, h, hcb]

/-- Round-down never moves a timestamp forward. -/
theorem roundDate_down_le (t g : ℕ) (hdvd : g ∣ 60) (hg : 0 < g) :
    roundDate t g true ≤ t := by
  rw [roundDate_down_eq_floor t g hdvd hg, mul_comm]
  exact Nat.div_mul_le_self t (60 * g)

/-- Round-up never moves a timestamp backward. -/
theorem le_roundDate_up (t g : ℕ) (hdvd : g ∣ 60) (hg : 0 < g) :
    t ≤ roundDate t g false := by
  rw [roundDate_up_eq t g hdvd hg, roundDate_down_eq_floor t g hdvd hg]
  have h1 := Nat.div_add_mod t (60 * g)
  have h2 : t % (60 * g) < 60 * g := Nat.mod_lt _ (by positivity)
  split <;> omega

/-- Both roundings land on the `60 * g`-second grid. -/
theorem dvd_roundDate (t g : ℕ) (hdvd : g ∣ 60) (hg : 0 < g) (b : Bool) :
    60 * g ∣ roundDate t g b := by
  cases b
  · rw [roundDate_up_eq t g hdvd hg, roundDate_down_eq_floor t g hdvd hg]
    split
    · exact Dvd.intro _ rfl
    · exact dvd_add (Dvd.intro _ rfl) ⟨1, by ring⟩
  · rw [roundDate_down_eq_floor t g hdvd hg]
    exact Dvd.intro _ rfl

/-- Round-down is idempotent. -/
theorem roundDate_down_idem (t g : ℕ) (hdvd : g ∣ 60) (hg : 0 < g) :
    roundDate (roundDate t g true) g true = roundDate t g true := by
  rw [roundDate_down_eq_floor t g hdvd hg,
    roundDate_down_eq_floor (60 * g * (t / (60 * g))) g hdvd hg,
    Nat.mul_div_cancel_left _ (by positivity : (0:ℕ) < 60 * g)]

/-- With a sufficient iteration budget, the budgeted chunk splitter is the
literal `while expected_intervals > 1024` loop. -/
theorem chunkLoop_eq_chunkFuel (n s e : ℕ) (h : e - s ≤ n * 1843200) :
    chunkLoop s e = chunkFuel n s e := by
  induction n generalizing s with
  | zero =>
    rw [chunkLoop]
    simp only [chunkFuel]
    rw [if_neg (by omega)]
  | succ n ih =>
    rw [chunkLoop]
    simp only [chunkFuel]
    by_cases hgt : e - s > 1843200
    · rw [if_pos hgt, if_pos hgt, ih _ (by omega)]
    · rw [if_neg hgt, if_neg hgt]

/-- With a sufficient iteration budget, the budgeted reconstruction walk is the
literal `while current < end` loop. -/
theorem walk_eq_walkFuel (m : Minutes) (e : ℕ) (n : ℕ) :
    ∀ cur prev entries, e ≤ cur + n * (60 * m.value) →
      walk m e cur prev entries = walkFuel m e n cur prev entries := by
  induction n with
  | zero =>
    intro cur prev entries h
    rw [walk]
    simp only [walkFuel]
    rw [dif_neg (by omega)]
  | succ n ih =>
    intro cur prev entries h
    have hg := m.value_pos
    rw [walk]
    simp only [walkFuel]
    by_cases hlt : cur < e
    · rw [dif_pos hlt, if_pos hlt]
      have harith : e ≤ cur + 60 * m.value + n * (60 * m.value) := by
        have : (n + 1) * (60 * m.value) = 60 * m.value + n * (60 * m.value) := by ring
        omega
      cases hstep : (match entries with
        | [] => some (prev, [])
        | (d, v) :: rest => advance (cur + 60 * m.value) d prev ((d, v) :: rest)) with
      | none => simp
      | some pr =>
        simp only
        rw [ih _ _ _ harith]
    · rw [dif_neg hlt, if_neg hlt]

/-- A successful reconstruction walk over a step-aligned remaining duration
emits exactly one record per step: its length times the step width is the
remaining duration. -/
theorem walkFuel_some_length (m : Minutes) (e n : ℕ) :
    ∀ cur prev entries r, walkFuel m e n cur prev entries = some r →
      e ≤ cur + n * (60 * m.value) → 60 * m.value ∣ e - cur →
      r.length * (60 * m.value) = e - cur := by
  have hg := m.value_pos
  induction n with
  | zero =>
    intro cur prev entries r hr hbound _hdvd
    simp only [walkFuel, Option.some.injEq] at hr
    subst hr
    simp only [List.length_nil, Nat.zero_mul]
    omega
  | succ n ih =>
    intro cur prev entries r hr hbound hdvd
    simp only [walkFuel] at hr
    by_cases hlt : cur < e
    · rw [if_pos hlt] at hr
      cases hstep : (match entries with
        | [] => some (prev, [])
        | (d, v) :: rest => advance (cur + 60 * m.value) d prev ((d, v) :: rest)) with
      | none => rw [hstep] at hr; simp at hr
      | some pr =>
        rw [hstep] at hr
        simp only [Option.map_eq_some'] at hr
        obtain ⟨r', hr', hcons⟩ := hr
        have hbound' : e ≤ cur + 60 * m.value + n * (60 * m.value) := by
          have : (n + 1) * (60 * m.value) = 60 * m.value + n * (60 * m.value) := by ring
          omega
        have hstepwidth : 60 * m.value ≤ e - cur :=
          Nat.le_of_dvd (by omega) hdvd
        have hdvd' : 60 * m.value ∣ e - (cur + 60 * m.value) := by
          have := Nat.dvd_sub' hdvd (dvd_refl (60 * m.value))
          rwa [Nat.sub_sub] at this
        have hlen := ih (cur + 60 * m.value) pr.1 pr.2 r' hr' hbound' hdvd'
        subst hcons
        simp only [List.length_cons]
        have hmul : (r'.length + 1) * (60 * m.value) =
            r'.length * (60 * m.value) + 60 * m.value := by ring
        omega
    · rw [if_neg hlt] at hr
      simp only [Option.some.injEq] at hr
      subst hr
      simp only [List.length_nil, Nat.zero_mul]
      omega

/-- When every response is empty, collection succeeds with no entries and one
request per chunk. -/
theorem collectAll_of_fetch_empty (fetch : ℕ → ℕ → List (ℕ × List ℚ))
    (hf : ∀ a b, fetch a b = []) :
    ∀ chunks, collectAll fetch chunks = (.ok [], chunks.length) := by
  intro chunks
  induction chunks with
  | nil => rfl
  | cons c rest ih =>
    obtain ⟨a, b⟩ := c
    simp [collectAll, hf a b, collectChunk, sortByKey, checkValues, ih, Except.map]

/-- Membership is preserved by sorted insertion. -/
theorem mem_insertSorted (p q : ℕ × List ℚ) :
    ∀ l, q ∈ insertSorted p l ↔ q = p ∨ q ∈ l := by
  intro l
  induction l with
  | nil => simp [insertSorted]
  | cons r t ih =>
    simp only [insertSorted]
    split
    · simp [List.mem_cons]
    · simp only [List.mem_cons, ih]
      tauto

/-- Membership is preserved by sorting. -/
theorem mem_sortByKey (q : ℕ × List ℚ) :
    ∀ l, q ∈ sortByKey l ↔ q ∈ l := by
  intro l
  induction l with
  | nil => simp [sortByKey]
  | cons p t ih =>
    have : sortByKey (p :: t) = insertSorted p (sortByKey t) := rfl
    rw [this, mem_insertSorted]
    simp [ih, List.mem_cons]

/-- A timestamp carrying a number of values different from one makes the value
check fail with the measurement error. -/
theorem checkValues_of_bad :
    ∀ l : List (ℕ × List ℚ), (∃ p ∈ l, p.2.length ≠ 1) →
      checkValues l = .error .netatmoMeasurementError := by
  intro l
  induction l with
  | nil => rintro ⟨p, hp, _⟩; simp at hp
  | cons hd rest ih =>
    rintro ⟨p, hp, hbad⟩
    obtain ⟨t, vs⟩ := hd
    rcases List.mem_cons.mp hp with heq | hmem
    · subst heq
      rcases vs with _ | ⟨v, _ | ⟨v2, vr⟩⟩
      · rfl
      · simp at hbad
      · rfl
    · rcases vs with _ | ⟨v, _ | ⟨v2, vr⟩⟩
      · rfl
      · simp only [checkValues, ih ⟨p, hmem, hbad⟩, Except.map]
      · rfl

/-- The value check can only fail with the measurement error. -/
theorem checkValues_error_eq :
    ∀ l err, checkValues l = .error err → err = .netatmoMeasurementError := by
  intro l
  induction l with
  | nil => intro err h; simp [checkValues] at h
  | cons hd rest ih =>
    intro err h
    obtain ⟨t, vs⟩ := hd
    rcases vs with _ | ⟨v, _ | ⟨v2, vr⟩⟩
    · simp only [checkValues, Except.error.injEq] at h
      exact h.symm
    · simp only [checkValues] at h
      cases hres : checkValues rest with
      | error e => rw [hres] at h; simp [Except.map] at h; exact h ▸ ih e hres
      | ok es => rw [hres] at h; simp [Except.map] at h
    · simp only [checkValues, Except.error.injEq] at h
      exact h.symm

/-- A chunk body containing a timestamp with a number of values different from
one is rejected with the measurement error. -/
theorem collectChunk_of_bad (body : List (ℕ × List ℚ))
    (hbad : ∃ p ∈ body, p.2.length ≠ 1) :
    collectChunk body = .error .netatmoMeasurementError := by
  obtain ⟨p, hp, hlen⟩ := hbad
  exact checkValues_of_bad _ ⟨p, (mem_sortByKey p body).mpr hp, hlen⟩

/-- Chunk processing can only fail with the measurement error. -/
theorem collectChunk_error_eq (body : List (ℕ × List ℚ)) (err : PyErr)
    (h : collectChunk body = .error err) : err = .netatmoMeasurementError :=
  checkValues_error_eq _ _ h

/-- If any chunk's response contains a timestamp with a number of values
different from one, the whole collection fails with the measurement error. -/
theorem collectAll_of_bad (fetch : ℕ → ℕ → List (ℕ × List ℚ)) :
    ∀ chunks, (∃ c ∈ chunks, ∃ p ∈ fetch c.1 c.2, p.2.length ≠ 1) →
      (collectAll fetch chunks).1 = .error .netatmoMeasurementError := by
  intro chunks
  induction chunks with
  | nil => rintro ⟨c, hc, _⟩; simp at hc
  | cons hd rest ih =>
    rintro ⟨c, hc, hbad⟩
    obtain ⟨a, b⟩ := hd
    rcases List.mem_cons.mp hc with heq | hmem
    · subst heq
      rw [collectAll, collectChunk_of_bad _ hbad]
    · rw [collectAll]
      cases hcc : collectChunk (fetch a b) with
      | error e =>
        simp only
        rw [collectChunk_error_eq _ _ hcc]
      | ok es =>
        simp only
        have hrest := ih ⟨c, hmem, hbad⟩
        cases hcol : collectAll fetch rest with
        | mk r n =>
          rw [hcol] at hrest
          simp only at hrest
          rw [hrest]
          rfl

/-- The chunk splitter always produces at least one sub-range. -/
theorem chunkLoop_ne_nil (s e : ℕ) : chunkLoop s e ≠ [] := by
  rw [chunkLoop]
  split <;> simp

/-- Unfolding of `chunksOk` on a cons with a non-empty tail. -/
theorem chunksOk_cons (s e a b : ℕ) (l : List (ℕ × ℕ)) (hl : l ≠ []) :
    chunksOk s e ((a, b) :: l) =
      (a == s && decide (a < b) && (b - a == 1843200) && chunksOk b e l) := by
  cases l with
  | nil => exact absurd rfl hl
  | cons q rest => rfl

/-- Any non-empty range is split into a well-formed chunk list (induction on a
bound for the range length). -/
theorem chunksOk_chunkLoop (n : ℕ) : ∀ s e, e - s ≤ n → s < e →
    chunksOk s e (chunkLoop s e) = true := by
  induction n with
  | zero => intro s e h1 h2; omega
  | succ n ih =>
    intro s e h1 h2
    rw [chunkLoop]
    by_cases hgt : e - s > 1843200
    · rw [if_pos hgt, chunksOk_cons _ _ _ _ _ (chunkLoop_ne_nil _ _)]
      have h3 : chunksOk (s + 1843200) e (chunkLoop (s + 1843200) e) = true :=
        ih _ _ (by omega) (by omega)
      simp [h3]
    · rw [if_neg hgt]
      simp [chunksOk]
      omega

/-- C1: the literal "4444447777333" scenario of the spec and of the
`get_historic` docstring: observations (t0, 4), (t3, 7), (t6, 3) on steps 0, 3
and 6 of 13 total 30-minute steps.  The documented result is the 13 values
4, 4, 4, 7, 7, 7, 3, 3, 3, 3, 3, 3, 3; the code instead pops past the end of
the observation list and raises `IndexError` while processing step 6 (having
already emitted 7, not 4, for step 0). -/
theorem c1_reconstruction_scenario :
    getHistoric (fun _ _ => [(0, [4]), (5400, [7]), (10800, [3])]) 0 23400 .min30
      = (.error .indexError, 1) := by
  decide

/-- C2: the forward-fill rule.  For observations (0, 4) and (5400, 7) over the
range [0, 9000) at 30-minute granularity, the last observation strictly
earlier than the ends of steps 0, 1 and 2 (1800, 3600, 5400) is (0, 4), so the
claim requires the values 4, 4, 4, 7, 7.  The code instead adopts the value of
the first observation dated at or after the step end whenever it consumes
observations, and emits 7 for every step. -/
theorem c2_forward_fill_divergence :
    getHistoric (fun _ _ => [(0, [4]), (5400, [7])]) 0 9000 .min30
      = (.ok [⟨7, 0, 1800⟩, ⟨7, 1800, 3600⟩, ⟨7, 3600, 5400⟩,
          ⟨7, 5400, 7200⟩, ⟨7, 7200, 9000⟩], 1) := by
  decide

/-- C3: (i) every normal return of `get_historic` carries exactly
`(aligned end - aligned start) / granularity` records (stated multiplied out);
(ii) zero observations for the whole range fail with
`NetatmoMeasurementError`; (iii) a timestamp carrying more than one value in
any fetched chunk fails with `NetatmoMeasurementError`. -/
theorem c3_exact_record_count :
    (∀ (fetch : ℕ → ℕ → List (ℕ × List ℚ)) (start stop : ℕ) (m : Minutes)
        (l : List HistoricTemperature) (n : ℕ),
      getHistoric fetch start stop m = (.ok l, n) →
      l.length * (60 * m.value) = alignedEnd stop m - alignedStart start m) ∧
    (∀ (fetch : ℕ → ℕ → List (ℕ × List ℚ)) (start stop : ℕ) (m : Minutes),
      (∀ a b, fetch a b = []) → start < stop →
      (getHistoric fetch start stop m).1 = .error .netatmoMeasurementError) ∧
    (∀ (fetch : ℕ → ℕ → List (ℕ × List ℚ)) (start stop : ℕ) (m : Minutes),
      (∃ c ∈ historicChunks start stop m, ∃ p ∈ fetch c.1 c.2, 2 ≤ p.2.length) →
      start < stop →
      (getHistoric fetch start stop m).1 = .error .netatmoMeasurementError) := by
  refine ⟨?_, ?_, ?_⟩
  · intro fetch start stop m l n hok
    simp only [getHistoric] at hok
    by_cases hvs : stop ≤ start
    · rw [if_pos hvs] at hok
      simp at hok
    · rw [if_neg hvs] at hok
      cases hcol : collectAll fetch (historicChunks start stop m) with
      | mk res cnt =>
        rw [hcol] at hok
        cases res with
        | error err => simp at hok
        | ok es =>
          cases es with
          | nil => simp at hok
          | cons hd rest =>
            obtain ⟨d0, v0⟩ := hd
            simp only at hok
            cases hwalk : walkFuel m (alignedEnd stop m)
                ((alignedEnd stop m - alignedStart start m) / (60 * m.value) + 1)
                (alignedStart start m) v0 ((d0, v0) :: rest) with
            | none => rw [hwalk] at hok; simp at hok
            | some resp =>
              rw [hwalk] at hok
              simp only [Prod.mk.injEq, Except.ok.injEq] at hok
              obtain ⟨hl, hn⟩ := hok
              subst hl
              have hdvds : 60 * m.value ∣ alignedStart start m :=
                dvd_roundDate start m.value m.value_dvd_60 m.value_pos true
              have hdvde : 60 * m.value ∣ alignedEnd stop m :=
                dvd_roundDate stop m.value m.value_dvd_60 m.value_pos false
              have hdvd : 60 * m.value ∣ alignedEnd stop m - alignedStart start m :=
                Nat.dvd_sub' hdvde hdvds
              have hpos : 0 < 60 * m.value := by
                have := m.value_pos
                positivity
              have hfuel : alignedEnd stop m ≤ alignedStart start m +
                  ((alignedEnd stop m - alignedStart start m) / (60 * m.value) + 1) *
                    (60 * m.value) := by
                have hdm := Nat.div_add_mod
                  (alignedEnd stop m - alignedStart start m) (60 * m.value)
                have hml : (alignedEnd stop m - alignedStart start m) % (60 * m.value) <
                    60 * m.value := Nat.mod_lt _ hpos
                have hexp : ((alignedEnd stop m - alignedStart start m) / (60 * m.value) + 1) *
                    (60 * m.value) = (60 * m.value) *
                      ((alignedEnd stop m - alignedStart start m) / (60 * m.value)) +
                      60 * m.value := by ring
                omega
              exact walkFuel_some_length m _ _ _ v0 _ resp hwalk hfuel hdvd
  · intro fetch start stop m hf hlt
    simp only [getHistoric]
    rw [if_neg (by omega), collectAll_of_fetch_empty fetch hf]
  · intro fetch start stop m hbad hlt
    obtain ⟨c, hc, p, hp, hlen⟩ := hbad
    have h1 : (collectAll fetch (historicChunks start stop m)).1 =
        .error .netatmoMeasurementError :=
      collectAll_of_bad fetch _ ⟨c, hc, p, hp, by omega⟩
    simp only [getHistoric]
    rw [if_neg (by omega)]
    cases hcol : collectAll fetch (historicChunks start stop m) with
    | mk res cnt =>
      rw [hcol] at h1
      simp only at h1
      subst h1
      rfl

theorem c3_exact_record_count_witness :
    ([(⟨7, 0, 1800⟩ : HistoricTemperature), ⟨7, 1800, 3600⟩, ⟨7, 3600, 5400⟩,
        ⟨7, 5400, 7200⟩, ⟨7, 7200, 9000⟩].length * (60 * Minutes.value .min30) =
      alignedEnd 9000 .min30 - alignedStart 0 .min30) ∧
    (getHistoric (fun _ _ => []) 0 9000 .min30).1 = .error .netatmoMeasurementError ∧
    (getHistoric (fun _ _ => [(0, [1, 2])]) 0 9000 .min30).1 =
      .error .netatmoMeasurementError := by
  refine ⟨?_, ?_, ?_⟩
  · exact c3_exact_record_count.1 (fun _ _ => [(0, [4]), (5400, [7])]) 0 9000 .min30
      [⟨7, 0, 1800⟩, ⟨7, 1800, 3600⟩, ⟨7, 3600, 5400⟩, ⟨7, 5400, 7200⟩, ⟨7, 7200, 9000⟩]
      1 (by decide)
  · exact c3_exact_record_count.2.1 (fun _ _ => []) 0 9000 .min30 (fun a b => rfl) (by decide)
  · exact c3_exact_record_count.2.2 (fun _ _ => [(0, [1, 2])]) 0 9000 .min30
      (by decide) (by decide)

/-- C5 counterexample: at T = 30 seconds with G = 1 minute, T is not on a
bucket boundary, round-down gives 0 and round-up gives 60, so the difference
is exactly G minutes (60 seconds) — not strictly less than G as claimed. -/
theorem c5_round_date_counterexample :
    roundDate 30 1 true = 0 ∧ roundDate 30 1 false = 60 ∧ ¬ 30 % (60 * 1) = 0 ∧
      ¬ roundDate 30 1 false - roundDate 30 1 true < 60 * 1 := by
  decide

/-- C5 (amended): for every granularity G dividing 60 and every timestamp T,
rounding down is idempotent, and round-up equals round-down on a bucket
boundary and round-down plus exactly G minutes otherwise. -/
theorem c5_round_date_properties (t g : ℕ) (hdvd : g ∣ 60) (hg : 0 < g) :
    roundDate (roundDate t g true) g true = roundDate t g true ∧
    (t % (60 * g) = 0 → roundDate t g false = roundDate t g true) ∧
    (t % (60 * g) ≠ 0 → roundDate t g false = roundDate t g true + 60 * g) := by
  refine ⟨roundDate_down_idem t g hdvd hg, ?_, ?_⟩ <;> intro h <;>
    rw [roundDate_up_eq t g hdvd hg]
  · rw [if_pos h]
  · rw [if_neg h, mul_comm g 60]

theorem c5_round_date_properties_witness :
    roundDate (roundDate 637 10 true) 10 true = roundDate 637 10 true ∧
    roundDate 637 10 false = roundDate 637 10 true + 60 * 10 := by
  have h := c5_round_date_properties 637 10 (by decide) (by decide)
  exact ⟨h.1, h.2.2 (by decide)⟩

/-- C6: for every non-empty range, the chunking loop of
`NetatmoClient.get_historic` produces an ordered list of consecutive
sub-ranges with no gaps and no overlaps that concatenates back to the exact
input range, where every sub-range spans at most 1024 units of 30 minutes and
every sub-range except the final one spans exactly 1024 units. -/
theorem c6_chunking (s e : ℕ) (h : s < e) : chunksOk s e (chunkLoop s e) = true :=
  chunksOk_chunkLoop (e - s) s e le_rfl h

theorem c6_chunking_witness :
    (0 : ℕ) < 4000000 ∧ chunksOk 0 4000000 (chunkLoop 0 4000000) = true :=
  ⟨by decide, c6_chunking 0 4000000 (by decide)⟩

/-- C8: for both historic queries, `end <= start` raises `ValueError` before
any network request is issued (the request counter of the result is 0). -/
theorem c8_invalid_range (nfetch : ℕ → ℕ → List (ℕ × List ℚ))
    (efetch : ℕ → ℕ → ℚ × ℤ) (start stop : ℕ) (m : Minutes) (h : stop ≤ start) :
    getHistoric nfetch start stop m = (.error .valueError, 0) ∧
    efergyGetHistoric efetch start stop m = (.error .valueError, 0) := by
  constructor <;> simp [getHistoric, efergyGetHistoric, h]

theorem c8_invalid_range_witness :
    getHistoric (fun _ _ => []) 100 100 .min5 = (.error .valueError, 0) ∧
    efergyGetHistoric (fun _ _ => (0, 0)) 100 100 .min5 = (.error .valueError, 0) :=
  c8_invalid_range (fun _ _ => []) (fun _ _ => (0, 0)) 100 100 .min5 (by decide)

/-- C4: `_access_server` attempts at most one token refresh per originating
call; a 403 answered by a successful renewal leads to exactly one renewal and
exactly one retry (two posts in total); and a second 403 on the retried
request surfaces `NetatmoConnectionError` (via `raise_for_status`) without a
second refresh attempt. -/
theorem c4_single_refresh (postResult : ℕ → HttpResponse) (renew : Except PyErr Unit) :
    (accessServer postResult renew).2.1 ≤ 1 ∧
    ((postResult 0).status = 403 → renew = .ok () →
      (accessServer postResult renew).2 = (1, 2)) ∧
    ((postResult 0).status = 403 → renew = .ok () → (postResult 1).status = 403 →
      accessServer postResult renew = (.error .netatmoConnectionError, 1, 2)) := by
  refine ⟨?_, ?_, ?_⟩
  · by_cases h1 : (postResult 0).status = 403
    · rcases renew with e | u
      · simp [accessServer, h1]
      · simp [accessServer, h1]
        split_ifs <;> simp
    · simp [accessServer, h1]
      split_ifs <;> simp
  · intro h1 hr
    subst hr
    simp [accessServer, h1]
    split_ifs <;> simp
  · intro h1 hr h2
    subst hr
    have h400 : 400 ≤ (postResult 1).status := by omega
    simp [accessServer, h1, h400]

theorem c4_single_refresh_witness :
    accessServer (fun _ => ⟨403, "denied"⟩) (.ok ()) =
      (.error .netatmoConnectionError, 1, 2) :=
  (c4_single_refresh (fun _ => ⟨403, "denied"⟩) (.ok ())).2.2 rfl rfl rfl

/-- C7 counterexample: a discovery response whose single relay has the empty
string as id (holding one thermostat module) succeeds and is cached, but the
cached empty id is falsy for `if not self._relay_id`, so a second `relay_id`
access issues another discovery request (request count 1, not 0). -/
theorem c7_discovery_counterexample :
    (relayIdGet (relayIdGet .init ⟨[⟨"", [⟨"m", ⟨19, 20⟩⟩]⟩]⟩).2.1
      ⟨[⟨"", [⟨"m", ⟨19, 20⟩⟩]⟩]⟩).2.2 = 1 := by
  decide

/-- C7 (amended): discovery with zero relays or two or more relays fails with
`NetatmoRelayError`; with one relay and zero or several thermostat modules it
fails with `NetatmoThermostatError`; with exactly one relay holding exactly
one thermostat module it succeeds and caches both identifiers, and — provided
the cached identifier is non-empty, since an empty id is falsy and re-triggers
discovery — a second access to `relay_id` or `thermostat_id` returns the
cached value and issues no further request. -/
theorem c7_discovery (data : ThermostatsData) :
    (data.devices = [] → getThermostatDataResult data = .error .netatmoRelayError) ∧
    (∀ d1 d2 ds, data.devices = d1 :: d2 :: ds →
      getThermostatDataResult data = .error .netatmoRelayError) ∧
    (∀ relay, data.devices = [relay] → relay.modules = [] →
      getThermostatDataResult data = .error .netatmoThermostatError) ∧
    (∀ relay m1 m2 ms, data.devices = [relay] → relay.modules = m1 :: m2 :: ms →
      getThermostatDataResult data = .error .netatmoThermostatError) ∧
    (∀ relay th, data.devices = [relay] → relay.modules = [th] →
      relayIdGet .init data =
        (.ok relay.id, ⟨some relay.id, some th.id,
          some (decide (th.measured.temperature < th.measured.setpointTemp))⟩, 1) ∧
      (relay.id ≠ "" →
        relayIdGet (relayIdGet .init data).2.1 data =
          (.ok relay.id, (relayIdGet .init data).2.1, 0)) ∧
      (th.id ≠ "" →
        thermostatIdGet (relayIdGet .init data).2.1 data =
          (.ok th.id, (relayIdGet .init data).2.1, 0))) := by
  refine ⟨?_, ?_, ?_, ?_, ?_⟩
  · intro h
    simp [getThermostatDataResult, h]
  · intro d1 d2 ds h
    simp [getThermostatDataResult, h]
  · intro relay h hm
    simp [getThermostatDataResult, h, hm]
  · intro relay m1 m2 ms h hm
    simp [getThermostatDataResult, h, hm]
  · intro relay th h hm
    have hfirst : relayIdGet .init data =
        (.ok relay.id, ⟨some relay.id, some th.id,
          some (decide (th.measured.temperature < th.measured.setpointTemp))⟩, 1) := by
      simp [relayIdGet, ClientState.init, pyFalsyStr, applyThermostatData,
        getThermostatDataResult, h, hm]
    refine ⟨hfirst, ?_, ?_⟩
    · intro hne
      rw [hfirst]
      simp [relayIdGet, pyFalsyStr, hne]
    · intro hne
      rw [hfirst]
      simp [thermostatIdGet, pyFalsyStr, hne]

theorem c7_discovery_witness :
    relayIdGet .init ⟨[⟨"r", [⟨"m", ⟨19, 20⟩⟩]⟩]⟩ =
      (.ok "r", ⟨some "r", some "m", some (decide ((19 : ℚ) < 20))⟩, 1) ∧
    relayIdGet (relayIdGet .init ⟨[⟨"r", [⟨"m", ⟨19, 20⟩⟩]⟩]⟩).2.1
        ⟨[⟨"r", [⟨"m", ⟨19, 20⟩⟩]⟩]⟩ =
      (.ok "r", (relayIdGet .init ⟨[⟨"r", [⟨"m", ⟨19, 20⟩⟩]⟩]⟩).2.1, 0) := by
  have h := (c7_discovery ⟨[⟨"r", [⟨"m", ⟨19, 20⟩⟩]⟩]⟩).2.2.2.2
    ⟨"r", [⟨"m", ⟨19, 20⟩⟩]⟩ ⟨"m", ⟨19, 20⟩⟩ rfl rfl
  exact ⟨h.1, h.2.1 (by decide)⟩

/-- C9: on a call at or past the shared expiry the entire cache of the
operation is cleared (whatever it held, for any arguments) and the expiry is
reset to now plus the configured lifetime, after which the call proceeds as a
normal miss; on a call before the expiry with a cached entry for the same
arguments, the cached value is returned without recomputation and the shared
expiry is unchanged. -/
theorem c9_timed_cache {α β : Type} [DecidableEq α] (f : α → β)
    (lifetime maxsize : ℕ) (st : TimedCache α β) (now : ℕ) (a : α) :
    (st.expiration ≤ now →
      timedCall f lifetime maxsize st now a =
        (f a, ⟨[(a, f a)].take maxsize, now + lifetime⟩, true)) ∧
    (now < st.expiration → ∀ v, lookupKey a st.entries = some v →
      timedCall f lifetime maxsize st now a =
        (v, ⟨(a, v) :: st.entries.filter (fun p => p.1 != a), st.expiration⟩, false)) := by
  constructor
  · intro h
    simp [timedCall, h, lruCall, lookupKey]
  · intro h v hv
    have hexp : ¬ st.expiration ≤ now := by omega
    simp [timedCall, hexp, lruCall, hv]

theorem c9_timed_cache_witness :
    timedCall (fun x : ℕ => x + 1) 10 128 ⟨[(5, 99)], 3⟩ 7 5 =
      (6, ⟨[(5, 6)], 17⟩, true) ∧
    timedCall (fun x : ℕ => x + 1) 10 128 ⟨[(5, 99)], 20⟩ 7 5 =
      (99, ⟨[(5, 99)], 20⟩, false) :=
  ⟨(c9_timed_cache (fun x : ℕ => x + 1) 10 128 ⟨[(5, 99)], 3⟩ 7 5).1 (by decide),
   (c9_timed_cache (fun x : ℕ => x + 1) 10 128 ⟨[(5, 99)], 20⟩ 7 5).2 (by decide)
     99 (by decide)⟩

/-- C10: whenever a valve is turned off — `turn_off_device` on a valve, or
`set_device` on a valve with mode `OFF` — the payload posted to the room
endpoint carries mode `"manual"`, temperature 7 and an `endtime` (defaulting
to 24 hours after now when no duration is supplied); and no `set_device` call
on a valve ever sends the literal mode `"off"`. -/
theorem c10_valve_off_payload (relayId thermostatId valveId homeId roomId : String)
    (now : ℤ) :
    (∀ mode temperature minutes endpoint fields,
      setDevice relayId thermostatId valveId homeId roomId now .valve mode
          temperature minutes = .ok (endpoint, fields) →
      endpoint = "/setroomthermpoint" ∧ lookupKey "mode" fields ≠ some (.s "off")) ∧
    (∀ temperature minutes endpoint fields,
      setDevice relayId thermostatId valveId homeId roomId now .valve .off
          temperature minutes = .ok (endpoint, fields) →
      lookupKey "mode" fields = some (.s "manual") ∧
      lookupKey "temp" fields = some (.n 7) ∧
      ∃ z, lookupKey "endtime" fields = some (.n z)) ∧
    (∀ temperature,
      setDevice relayId thermostatId valveId homeId roomId now .valve .off
          temperature none =
        .ok ("/setroomthermpoint",
          [("home_id", .s homeId), ("room_id", .s roomId), ("mode", .s "manual"),
           ("endtime", .n (now + 60 * (24 * 60))), ("temp", .n 7)])) ∧
    (∀ minutes endpoint fields,
      turnOffDevice relayId thermostatId valveId homeId roomId now .valve minutes
        = .ok (endpoint, fields) →
      endpoint = "/setroomthermpoint" ∧
      lookupKey "mode" fields = some (.s "manual") ∧
      lookupKey "temp" fields = some (.n 7) ∧
      ∃ z, lookupKey "endtime" fields = some (.n z)) := by
  refine ⟨?_, ?_, ?_, ?_⟩
  · intro mode temperature minutes endpoint fields h
    rcases mode with _ | _ | _
    · rcases minutes with _ | mv
      · simp [setDevice, SetpointMode.modeString, pyFalsyInt] at h
        obtain ⟨he, hf⟩ := h
        subst he
        subst hf
        simp [lookupKey]
      · by_cases hz : mv = 0
        · subst hz
          simp [setDevice, SetpointMode.modeString, pyFalsyInt] at h
          obtain ⟨he, hf⟩ := h
          subst he
          subst hf
          simp [lookupKey]
        · by_cases hneg : mv < 0
          · simp [setDevice, SetpointMode.modeString, pyFalsyInt, hz, hneg] at h
          · simp [setDevice, SetpointMode.modeString, pyFalsyInt, hz, hneg] at h
            obtain ⟨he, hf⟩ := h
            subst he
            subst hf
            simp [lookupKey]
    · rcases minutes with _ | mv
      · simp [setDevice, SetpointMode.modeString, pyFalsyInt] at h
      · by_cases hz : mv = 0
        · subst hz
          simp [setDevice, SetpointMode.modeString, pyFalsyInt] at h
        · by_cases hneg : mv < 0
          · simp [setDevice, SetpointMode.modeString, pyFalsyInt, hz, hneg] at h
          · rcases temperature with _ | tv
            · simp [setDevice, SetpointMode.modeString, pyFalsyInt, hz, hneg] at h
            · by_cases htz : tv = 0
              · subst htz
                simp [setDevice, SetpointMode.modeString, pyFalsyInt, hz, hneg] at h
              · by_cases hrange : (7:ℤ) ≤ tv ∧ tv ≤ 30
                · simp [setDevice, SetpointMode.modeString, pyFalsyInt, hz, hneg,
                    htz, hrange] at h
                  obtain ⟨he, hf⟩ := h
                  subst he
                  subst hf
                  simp [lookupKey]
                · simp [setDevice, SetpointMode.modeString, pyFalsyInt, hz, hneg,
                    htz, hrange] at h
    · rcases minutes with _ | mv
      · simp [setDevice, SetpointMode.modeString, pyFalsyInt] at h
      · by_cases hz : mv = 0
        · subst hz
          simp [setDevice, SetpointMode.modeString, pyFalsyInt] at h
        · by_cases hneg : mv < 0
          · simp [setDevice, SetpointMode.modeString, pyFalsyInt, hz, hneg] at h
          · simp [setDevice, SetpointMode.modeString, pyFalsyInt, hz, hneg] at h
            obtain ⟨he, hf⟩ := h
            subst he
            subst hf
            simp [lookupKey]
  · intro temperature minutes endpoint fields h
    rcases minutes with _ | mv
    · simp [setDevice, SetpointMode.modeString, pyFalsyInt] at h
      obtain ⟨he, hf⟩ := h
      subst he
      subst hf
      simp [lookupKey]
    · by_cases hz : mv = 0
      · subst hz
        simp [setDevice, SetpointMode.modeString, pyFalsyInt] at h
        obtain ⟨he, hf⟩ := h
        subst he
        subst hf
        simp [lookupKey]
      · by_cases hneg : mv < 0
        · simp [setDevice, SetpointMode.modeString, pyFalsyInt, hz, hneg] at h
        · simp [setDevice, SetpointMode.modeString, pyFalsyInt, hz, hneg] at h
          obtain ⟨he, hf⟩ := h
          subst he
          subst hf
          simp [lookupKey]
  · intro temperature
    rfl
  · intro minutes endpoint fields h
    rcases minutes with _ | mv
    · simp [turnOffDevice, setDevice, SetpointMode.modeString, pyFalsyInt] at h
    · by_cases hz : mv = 0
      · subst hz
        simp [turnOffDevice, setDevice, SetpointMode.modeString, pyFalsyInt] at h
      · by_cases hneg : mv < 0
        · simp [turnOffDevice, setDevice, SetpointMode.modeString, pyFalsyInt,
            hz, hneg] at h
        · simp [turnOffDevice, setDevice, SetpointMode.modeString, pyFalsyInt,
            hz, hneg] at h
          obtain ⟨he, hf⟩ := h
          subst he
          subst hf
          simp [lookupKey]

theorem c10_valve_off_payload_witness :
    "/setroomthermpoint" = "/setroomthermpoint" ∧
    lookupKey "mode" [("home_id", PVal.s "h"), ("room_id", PVal.s "ro"),
        ("mode", PVal.s "manual"), ("endtime", PVal.n 700),
        ("temp", PVal.n 7)] = some (.s "manual") ∧
    lookupKey "temp" [("home_id", PVal.s "h"), ("room_id", PVal.s "ro"),
        ("mode", PVal.s "manual"), ("endtime", PVal.n 700),
        ("temp", PVal.n 7)] = some (.n 7) ∧
    ∃ z, lookupKey "endtime" [("home_id", PVal.s "h"), ("room_id", PVal.s "ro"),
        ("mode", PVal.s "manual"), ("endtime", PVal.n 700),
        ("temp", PVal.n 7)] = some (.n z) :=
  (c10_valve_off_payload "r" "t" "v" "h" "ro" 100).2.2.2 (some 10) "/setroomthermpoint"
    [("home_id", PVal.s "h"), ("room_id", PVal.s "ro"), ("mode", PVal.s "manual"),
     ("endtime", PVal.n 700), ("temp", PVal.n 7)] (by decide)

end ChaiDataSources
